import Mathlib

/-!
Shallow embedding of the sharedir HTTP file server (two Go variants:
sharedir.go and an earlier unnamed variant of the same program), with
proofs about its path resolution, containment check, access policy,
content serving and error mapping.  Go strings are modelled as lists of
characters.  The parts of the Go standard library the program relies on
(strings, path/filepath, html, mime) are modelled by the executable
functions below, faithful to their documented semantics on the inputs
the program can produce; each model says in its doc comment what it
covers.
-/

/-- Go strings are modelled as lists of characters. -/
abbrev Str := List Char

/-- Models strings.HasPrefix: pre is a string prefix of s. -/
def hasPrefix (s pre : Str) : Bool := pre.isPrefixOf s

/-- Models strings.TrimPrefix: remove one leading occurrence of pre, if present. -/
def trimPrefix (s pre : Str) : Str := if pre.isPrefixOf s then s.drop pre.length else s

/-- Fuelled worker for replaceAll; the fuel bounds the number of scan steps
and is always called with the length of the scanned string, which suffices. -/
def replaceAllAux (pat rep : Str) : Nat → Str → Str
  | 0, s => s
  | _ + 1, [] => []
  | fuel + 1, c :: rest =>
    if pat.isPrefixOf (c :: rest) then rep ++ replaceAllAux pat rep fuel ((c :: rest).drop pat.length)
    else c :: replaceAllAux pat rep fuel rest

/-- Models strings.ReplaceAll for a non-empty pattern: replace every
non-overlapping occurrence of pat by rep, scanning left to right.
(Go inserts rep between characters when pat is empty; the program only
uses the three-character patterns percent-20, percent-28, percent-29,
so the empty-pattern case is returned unchanged.) -/
def replaceAll (s pat rep : Str) : Str :=
  if pat = [] then s else replaceAllAux pat rep s.length s

/-- Numeric value of a list of decimal digits. -/
def digitsToNat (ds : Str) : Nat := ds.foldl (fun n c => n * 10 + (c.toNat - 48)) 0

/-- Fuelled worker for unescapeString. -/
def unescapeAux : Nat → Str → Str
  | 0, s => s
  | _ + 1, [] => []
  | fuel + 1, '&' :: '#' :: rest =>
    (match rest.takeWhile Char.isDigit, rest.dropWhile Char.isDigit with
     | _ :: _, ';' :: tail2 => Char.ofNat (digitsToNat (rest.takeWhile Char.isDigit)) :: unescapeAux fuel tail2
     | _, _ => '&' :: unescapeAux fuel ('#' :: rest))
  | fuel + 1, c :: rest => c :: unescapeAux fuel rest

/-- Models html.UnescapeString restricted to terminated decimal numeric
character references (amp-hash-digits-semicolon); named and hexadecimal
references pass through unchanged.  No claim below depends on the decoding
of any particular entity: the theorems quantify over the decoded string. -/
def unescapeString (s : Str) : Str := unescapeAux s.length s

/-- Split on a separator character, keeping empty segments
(models strings.Split for a one-character separator): worker. -/
def splitAllAux (sep : Char) : Str → Str → List Str
  | cur, [] => [cur.reverse]
  | cur, c :: rest =>
    if c = sep then cur.reverse :: splitAllAux sep [] rest
    else splitAllAux sep (c :: cur) rest

/-- Models strings.Split for a one-character separator. -/
def splitAll (s : Str) (sep : Char) : List Str := splitAllAux sep [] s

/-- A path is absolute when it starts with a separator (Unix semantics,
models filepath.IsAbs). -/
def isAbs : Str → Bool
  | [] => false
  | c :: _ => c = '/'

/-- Split a path into its non-empty, separator-free segments: worker,
with the current segment accumulated in reverse. -/
def splitSegsAux : Str → Str → List Str
  | cur, [] => if cur = [] then [] else [cur.reverse]
  | cur, c :: rest =>
    if c = '/' then
      (if cur = [] then splitSegsAux [] rest else cur.reverse :: splitSegsAux [] rest)
    else splitSegsAux (c :: cur) rest

/-- Split a path into its non-empty, separator-free segments. -/
def splitSegs (p : Str) : List Str := splitSegsAux [] p

/-- The segment-processing loop of filepath.Clean: dot segments are
dropped, a dot-dot segment pops the previous segment (and is dropped at
the root of an absolute path, or kept when nothing can be popped in a
relative path); the processed segments are accumulated in reverse in
stack. -/
def cleanSegs (ab : Bool) : List Str → List Str → List Str
  | stack, [] => stack.reverse
  | stack, seg :: rest =>
    if seg = ['.'] then cleanSegs ab stack rest
    else if seg = ['.', '.'] then
      (match stack with
       | [] => if ab then cleanSegs ab [] rest else cleanSegs ab [['.', '.']] rest
       | top :: stk =>
         if top = ['.', '.'] then cleanSegs ab (['.', '.'] :: top :: stk) rest
         else cleanSegs ab stk rest)
    else cleanSegs ab (seg :: stack) rest

/-- Render a list of segments as a separator-joined path string. -/
def joinSegs : List Str → Str
  | [] => []
  | [s] => s
  | s :: t :: rest => s ++ '/' :: joinSegs (t :: rest)

/-- Models filepath.Clean (Unix): lexical cleaning of a path — collapse
repeated separators, drop dot segments, resolve dot-dot segments
lexically, never emit a trailing separator, return a dot for an empty
result. -/
def goClean (p : Str) : Str :=
  if p = [] then ['.']
  else
    let segs := cleanSegs (isAbs p) [] (splitSegs p)
    let out := (if isAbs p then ['/'] else []) ++ joinSegs segs
    if out = [] then ['.'] else out

/-- Models filepath.Join on two elements: empty elements are skipped and
the separator-joined result is cleaned; the result is empty when both
elements are. -/
def goJoin (a b : Str) : Str :=
  if a = [] then (if b = [] then [] else goClean b)
  else if b = [] then goClean a
  else goClean (a ++ '/' :: b)

/-- Models filepath.Abs on the inputs the program produces: an absolute
input is cleaned and returned.  A relative input would be joined onto
the process working directory, which the embedding does not carry, so
it is mapped to the error case none; every call site below feeds an
absolute path (the configured root is made absolute at startup). -/
def goAbs (p : Str) : Option Str :=
  if isAbs p then some (goClean p) else none

/-- Models filepath.Dir (Unix): everything up to and including the final
separator, cleaned; a dot when the path contains no separator. -/
def goDir (p : Str) : Str :=
  goClean ((p.reverse.dropWhile (fun c => c != '/')).reverse)

/-- Models filepath.Ext (Unix): the suffix starting at the final dot of
the final path element, empty when that element has no dot. -/
def goExt (p : Str) : Str :=
  match p.reverse.dropWhile (fun c => c != '/' && c != '.') with
  | '.' :: _ => '.' :: (p.reverse.takeWhile (fun c => c != '/' && c != '.')).reverse
  | _ => []

/-- Last character of a string, if any. -/
def lastChar : Str → Option Char
  | [] => none
  | [c] => some c
  | _ :: c :: rest => lastChar (c :: rest)

/-- True when the string has no two adjacent separator characters. -/
def noDS : Str → Bool
  | [] => true
  | [_] => true
  | a :: b :: rest => !(a == '/' && b == '/') && noDS (b :: rest)

/-! Model of sharedir.go.  The mutable globals root, recursive and home
are passed as explicit parameters; the filesystem and the mime table
are passed as functions (stat, file read, directory read, extension
lookup); the http.ResponseWriter is modelled as the list of calls the
handler makes on it, in order, together with the filesystem accesses
and a marker for log.Fatalf (which kills the process, so nothing
follows it). -/

/-- One observable step of a request handler: a WriteHeader call, a
Header().Set call, a Write of body bytes, a filesystem read, or a
log.Fatalf terminating the process. -/
inductive Ev where
  | writeHeader (code : Nat)
  | setHeader (key val : Str)
  | write (data : Str)
  | readFile (path : Str)
  | readDir (path : Str)
  | fatal
deriving DecidableEq, Repr

/-- The safePath struct of sharedir.go: the absolute path and the
root-relative path of an admitted request. -/
structure SafePath where
  abs : Str
  rel : Str
deriving DecidableEq, Repr

/-- The decoding steps of parseSafePath (sharedir.go lines 39-43):
strip one leading separator, unescape HTML entities, then replace the
three percent escapes for space and parentheses. -/
def decodePath (raw : Str) : Str :=
  replaceAll
    (replaceAll
      (replaceAll (unescapeString (trimPrefix raw ['/'])) "%20".toList " ".toList)
      "%28".toList "(".toList)
    "%29".toList ")".toList

/-- parseSafePath (sharedir.go lines 33-64): decode the raw request
path, join it onto root, make it absolute, and admit it when root is a
string prefix of the result (the bare strings.HasPrefix comparison of
line 53); the relative path is the admitted path with the root prefix
and then at most one leading separator stripped. -/
def parseSafePath (root raw : Str) : Option SafePath :=
  match goAbs (goJoin root (decodePath raw)) with
  | none => none
  | some abs =>
    if hasPrefix abs root then
      some ⟨abs, if abs ≠ root then trimPrefix (trimPrefix abs root) ['/'] else []⟩
    else none

/-- guessMimeType (sharedir.go lines 68-80): the registered type of the
extension when the extension is non-empty and registered, otherwise the
generic binary type.  typeByExt models mime.TypeByExtension, returning
the empty string for an unregistered extension. -/
def guessMimeType (typeByExt : Str → Str) (fp : Str) : Str :=
  if goExt fp ≠ [] then
    (if typeByExt (goExt fp) ≠ [] then typeByExt (goExt fp)
     else "application/octet-stream".toList)
  else "application/octet-stream".toList

/-- serveFailure (sharedir.go lines 128-132): write the failure status,
set the plain-text content type, write the message. -/
def serveFailure (code : Nat) (msg : Str) : List Ev :=
  [Ev.writeHeader code,
   Ev.setHeader "Content-Type".toList "text/plain; charset=utf-8".toList,
   Ev.write msg]

/-- serveFile (sharedir.go lines 134-156): read the whole file (500 on
failure), write the bytes (500 on a write error, modelled by the
writeOk flag), then set the content type guessed from the relative
path.  Note the source sets Content-Type after w.Write. -/
def serveFile (typeByExt : Str → Str) (readFileF : Str → Option Str) (writeOk : Bool)
    (p : SafePath) : List Ev :=
  match readFileF p.abs with
  | none => Ev.readFile p.abs :: serveFailure 500 "server error".toList
  | some data =>
    if writeOk then
      [Ev.readFile p.abs, Ev.write data,
       Ev.setHeader "Content-Type".toList (guessMimeType typeByExt p.rel)]
    else
      Ev.readFile p.abs :: Ev.write data :: serveFailure 500 "server error".toList

/-- serveIcon (sharedir.go lines 158-164): serve the icon file from the
fixed location home/sharedir.ico, with an empty relative path. -/
def serveIcon (typeByExt : Str → Str) (readFileF : Str → Option Str) (writeOk : Bool)
    (home : Str) : List Ev :=
  serveFile typeByExt readFileF writeOk ⟨goJoin home "sharedir.ico".toList, []⟩

/-- serveDir (sharedir.go lines 166-204): enumerate the directory
(log.Fatalf on failure), parse the template (log.Fatalf on failure),
execute it into the writer (log.Fatalf on failure), then set the HTML
content type.  The rendered listing body is abstracted as the rendered
parameter; no claim concerns its content. -/
def serveDir (readDirF : Str → Option (List Str)) (parseOk execOk : Bool) (rendered : Str)
    (p : SafePath) : List Ev :=
  match readDirF p.abs with
  | none => [Ev.readDir p.abs, Ev.fatal]
  | some _ =>
    if parseOk then
      (if execOk then
        [Ev.readDir p.abs, Ev.write rendered,
         Ev.setHeader "Content-Type".toList "text/html; charset=utf-8".toList]
      else [Ev.readDir p.abs, Ev.fatal])
    else [Ev.readDir p.abs, Ev.fatal]

/-- The reserved icon request path of sharedir.go line 95. -/
def faviconPath : Str := "/~favicon.ico".toList

/-- serve (sharedir.go lines 86-124): the reserved icon path is served
unconditionally; otherwise the request is resolved (400 on failure),
stat-ed (404 on failure, statF returns whether the entry is a
directory), and dispatched through the access policy: a directory is
served when recursive or equal to root, a file when recursive or its
parent directory is root; anything else is 401. -/
def serve (root : Str) (rec? : Bool) (home : Str) (typeByExt : Str → Str)
    (statF : Str → Option Bool) (readFileF : Str → Option Str)
    (readDirF : Str → Option (List Str)) (writeOk parseOk execOk : Bool) (rendered : Str)
    (raw : Str) : List Ev :=
  if raw = faviconPath then serveIcon typeByExt readFileF writeOk home
  else
    match parseSafePath root raw with
    | none => serveFailure 400 "invalid path".toList
    | some sp =>
      match statF sp.abs with
      | none => serveFailure 404 "invalid path".toList
      | some isDirT =>
        if isDirT then
          (if rec? = true ∨ sp.abs = root then serveDir readDirF parseOk execOk rendered sp
           else serveFailure 401 "unauthorized".toList)
        else
          (if rec? = true ∨ goDir sp.abs = root then serveFile typeByExt readFileF writeOk sp
           else serveFailure 401 "unauthorized".toList)

/-- HTTP status of a handler trace: the code of the first WriteHeader
call, the implicit 200 if body bytes are written before any WriteHeader
(Go transport semantics), and none when the process dies or the handler
returns before writing anything. -/
def statusOf : List Ev → Option Nat
  | [] => none
  | Ev.writeHeader c :: _ => some c
  | Ev.write _ :: _ => some 200
  | Ev.fatal :: _ => none
  | _ :: rest => statusOf rest

/-- Whether an event sets the Content-Type header. -/
def isTypeSet : Ev → Bool
  | Ev.setHeader k _ => k = "Content-Type".toList
  | _ => false

/-- True when some body Write happens strictly before the Content-Type
header is set in the trace. -/
def bodyBeforeType : List Ev → Bool
  | [] => false
  | Ev.setHeader k _ :: rest =>
    if k = "Content-Type".toList then false else bodyBeforeType rest
  | Ev.write _ :: rest => rest.any isTypeSet
  | _ :: rest => bodyBeforeType rest

/-- The Root-containment invariant in the words of the specification: the
absolute form equals Root or has Root plus a path separator as a strict
prefix. -/
def specContained (abs root : Str) : Prop :=
  abs = root ∨ (root ++ ['/']).isPrefixOf abs = true

instance (a r : Str) : Decidable (specContained a r) :=
  inferInstanceAs (Decidable (a = r ∨ (r ++ ['/']).isPrefixOf a = true))

namespace Unnamed

/-- getMimeType of the unnamed variant (part_000 lines 66-80): split the
name on dots; when there is more than one part, look up a dot followed
by the last part; default to the generic binary type. -/
def getMimeType (typeByExt : Str → Str) (fn : Str) : Str :=
  if (splitAll fn '.').length > 1 then
    (if typeByExt ('.' :: (splitAll fn '.').getLastD []) = []
     then "application/octet-stream".toList
     else typeByExt ('.' :: (splitAll fn '.').getLastD []))
  else "application/octet-stream".toList

/-- serveReject of the unnamed variant (part_000 lines 82-86): write
the failure status, set the plain-text content type, write the message. -/
def serveReject (code : Nat) (msg : Str) : List Ev :=
  [Ev.writeHeader code,
   Ev.setHeader "Content-Type".toList "text/plain; charset=utf-8".toList,
   Ev.write msg]

/-- serveFile of the unnamed variant (part_000 lines 125-151): guess the
type, read the whole file (500 on failure), write the bytes (500 on a
write error, modelled by writeOk), then set the content type.  As in
sharedir.go, the source sets Content-Type after w.Write. -/
def serveFile (typeByExt : Str → Str) (readFileF : Str → Option Str) (writeOk : Bool)
    (target : Str) : List Ev :=
  match readFileF target with
  | none => Ev.readFile target :: serveReject 500 "error".toList
  | some data =>
    if writeOk then
      [Ev.readFile target, Ev.write data,
       Ev.setHeader "Content-Type".toList (getMimeType typeByExt target)]
    else
      Ev.readFile target :: Ev.write data :: serveReject 500 "error".toList

/-- serveDir of the unnamed variant (part_000 lines 153-197): enumerate
the directory (log.Fatalf on failure), assemble the HTML listing
(abstracted as the rendered parameter), write the 200 status, set the
HTML content type, write the listing (log.Fatalf on a write error,
modelled by writeOk). -/
def serveDir (readDirF : Str → Option (List Str)) (rendered : Str) (writeOk : Bool)
    (dir : Str) : List Ev :=
  match readDirF dir with
  | none => [Ev.readDir dir, Ev.fatal]
  | some _ =>
    if writeOk then
      [Ev.readDir dir, Ev.writeHeader 200,
       Ev.setHeader "Content-Type".toList "text/html; charset=utf-8".toList,
       Ev.write rendered]
    else
      [Ev.readDir dir, Ev.writeHeader 200,
       Ev.setHeader "Content-Type".toList "text/html; charset=utf-8".toList,
       Ev.write rendered, Ev.fatal]

/-- serve of the unnamed variant (part_000 lines 88-123): join the raw
request path onto the root and make it absolute (400 on failure), check
that the root is a bare string prefix of the target (401 otherwise, the
strings.HasPrefix of line 103), stat it (404 on failure), then serve a
file or a directory.  The rec? parameter models the recursive global,
which this variant never reads. -/
def serve (rootDir : Str) (rec? : Bool) (typeByExt : Str → Str)
    (statF : Str → Option Bool) (readFileF : Str → Option Str)
    (readDirF : Str → Option (List Str)) (rendered : Str) (writeOk : Bool)
    (raw : Str) : List Ev :=
  match goAbs (goJoin rootDir raw) with
  | none => serveReject 400 "bad target path".toList
  | some target =>
    if hasPrefix target rootDir then
      (match statF target with
       | none => serveReject 404 "target not found".toList
       | some isDirT =>
         if isDirT then serveDir readDirF rendered writeOk target
         else serveFile typeByExt readFileF writeOk target)
    else serveReject 401 "unauthorized path".toList

/-- The argument loop of the unnamed main (part_000 lines 216-232): a
help argument exits (modelled as none); -r sets the recursive flag; the
first other argument is taken as the address, the next as the root
directory.  The state is (recursive, addr, rootDir). -/
def argLoop : List Str → Bool → Str → Str → Option (Bool × Str × Str)
  | [], recFlag, addr, rootDir => some (recFlag, addr, rootDir)
  | a :: rest, recFlag, addr, rootDir =>
    if a = "help".toList ∨ a = "--help".toList ∨ a = "-h".toList then none
    else if a = "-r".toList then argLoop rest true addr rootDir
    else if addr = [] then argLoop rest recFlag a rootDir
    else argLoop rest recFlag addr a

/-- Command-line parsing of the unnamed main (part_000 lines 215-246),
up to but not including the filepath.Abs call on the root (which
depends on the working directory): run the argument loop, make a lone
positional argument serve as the root, then apply the defaults. -/
def parseArgs (args : List Str) : Option (Bool × Str × Str) :=
  match argLoop args false [] [] with
  | none => none
  | some (recFlag, addr, rootDir) =>
    let rootDir2 := if addr ≠ [] ∧ rootDir = [] then addr else rootDir
    let addr2 := if addr = [] then ":2022".toList else addr
    let rootDir3 := if rootDir2 = [] then ".".toList else rootDir2
    some (recFlag, addr2, rootDir3)

end Unnamed

/-! Structural lemmas about the lexical path-cleaning model, used to
characterise the outputs of goClean on absolute paths. -/

/-- A path segment: non-empty and separator-free. -/
def isSeg (s : Str) : Prop := s ≠ [] ∧ '/' ∉ s

/-- A cleaned path segment: a segment that is neither dot nor dot-dot. -/
def goodSeg (s : Str) : Prop := s ≠ [] ∧ '/' ∉ s ∧ s ≠ ['.'] ∧ s ≠ ['.', '.']

instance (s : Str) : Decidable (isSeg s) :=
  inferInstanceAs (Decidable (s ≠ [] ∧ '/' ∉ s))

instance (s : Str) : Decidable (goodSeg s) :=
  inferInstanceAs (Decidable (s ≠ [] ∧ '/' ∉ s ∧ s ≠ ['.'] ∧ s ≠ ['.', '.']))

theorem isAbs_eq_true {p : Str} : isAbs p = true ↔ ∃ t, p = '/' :: t := by
  cases p with
  | nil => simp [isAbs]
  | cons c t =>
    simp only [isAbs, decide_eq_true_eq]
    constructor
    · intro h; exact ⟨t, by rw [h]⟩
    · rintro ⟨u, hu⟩; cases hu; rfl

theorem splitSegsAux_isSeg :
    ∀ (p cur : Str), '/' ∉ cur → ∀ s ∈ splitSegsAux cur p, isSeg s := by
  intro p
  induction p with
  | nil =>
    intro cur hcur s hs
    by_cases h : cur = []
    · simp [splitSegsAux, h] at hs
    · simp only [splitSegsAux, if_neg h, List.mem_singleton] at hs
      subst hs
      exact ⟨by simpa using h, by simpa using hcur⟩
  | cons c rest ih =>
    intro cur hcur s hs
    simp only [splitSegsAux] at hs
    by_cases hc : c = '/'
    · rw [if_pos hc] at hs
      by_cases h : cur = []
      · rw [if_pos h] at hs
        exact ih [] (by simp) s hs
      · rw [if_neg h] at hs
        rcases List.mem_cons.mp hs with h1 | h1
        · subst h1
          exact ⟨by simpa using h, by simpa using hcur⟩
        · exact ih [] (by simp) s h1
    · rw [if_neg hc] at hs
      exact ih (c :: cur) (by simp [hcur, Ne.symm hc, eq_comm]) s hs

theorem splitSegsAux_nil (cur : Str) :
    splitSegsAux cur [] = if cur = [] then [] else [cur.reverse] := rfl

theorem splitSegsAux_cons (cur : Str) (c : Char) (rest : Str) :
    splitSegsAux cur (c :: rest) =
      if c = '/' then
        (if cur = [] then splitSegsAux [] rest else cur.reverse :: splitSegsAux [] rest)
      else splitSegsAux (c :: cur) rest := rfl

theorem splitSegsAux_consume :
    ∀ (s : Str), '/' ∉ s →
      ∀ cur t, splitSegsAux cur (s ++ t) = splitSegsAux (s.reverse ++ cur) t := by
  intro s
  induction s with
  | nil => intro _ cur t; simp
  | cons c s' ih =>
    intro hns cur t
    have hc : c ≠ '/' := fun h => hns (by simp [h])
    have hs' : '/' ∉ s' := fun h => hns (List.mem_cons_of_mem _ h)
    calc splitSegsAux cur (c :: s' ++ t)
        = splitSegsAux (c :: cur) (s' ++ t) := by
          rw [List.cons_append, splitSegsAux_cons, if_neg hc]
      _ = splitSegsAux (s'.reverse ++ (c :: cur)) t := ih hs' (c :: cur) t
      _ = splitSegsAux ((c :: s').reverse ++ cur) t := by
          rw [List.reverse_cons, List.append_assoc, List.singleton_append]

theorem splitSegs_joinSegs :
    ∀ (segs : List Str), (∀ s ∈ segs, isSeg s) → splitSegsAux [] (joinSegs segs) = segs := by
  intro segs
  induction segs with
  | nil => intro _; rfl
  | cons s rest ih =>
    intro h
    have hseg := h s (List.mem_cons_self _ _)
    have hrest : ∀ x ∈ rest, isSeg x := fun x hx => h x (List.mem_cons_of_mem _ hx)
    cases rest with
    | nil =>
      have h2 := splitSegsAux_consume s hseg.2 [] []
      simp only [List.append_nil] at h2
      rw [show joinSegs [s] = s from rfl, h2, splitSegsAux_nil,
          if_neg (by simpa using hseg.1)]
      simp
    | cons t rest' =>
      have h2 := splitSegsAux_consume s hseg.2 [] ('/' :: joinSegs (t :: rest'))
      simp only [List.append_nil] at h2
      rw [show joinSegs (s :: t :: rest') = s ++ '/' :: joinSegs (t :: rest') from rfl, h2,
          splitSegsAux_cons, if_pos rfl, if_neg (by simpa using hseg.1),
          List.reverse_reverse, ih hrest]

theorem splitSegsAux_trailing :
    ∀ (p cur : Str), splitSegsAux cur (p ++ ['/']) = splitSegsAux cur p := by
  intro p
  induction p with
  | nil =>
    intro cur
    by_cases h : cur = [] <;>
      simp [splitSegsAux_nil, splitSegsAux_cons, h]
  | cons c rest ih =>
    intro cur
    rw [List.cons_append, splitSegsAux_cons, splitSegsAux_cons]
    by_cases hc : c = '/'
    · rw [if_pos hc, if_pos hc]
      by_cases h : cur = []
      · rw [if_pos h, if_pos h, ih]
      · rw [if_neg h, if_neg h, ih]
    · rw [if_neg hc, if_neg hc, ih]

theorem cleanSegs_nil (ab : Bool) (stack : List Str) :
    cleanSegs ab stack [] = stack.reverse := rfl

theorem cleanSegs_cons (ab : Bool) (stack : List Str) (seg : Str) (rest : List Str) :
    cleanSegs ab stack (seg :: rest) =
      if seg = ['.'] then cleanSegs ab stack rest
      else if seg = ['.', '.'] then
        (match stack with
         | [] => if ab then cleanSegs ab [] rest else cleanSegs ab [['.', '.']] rest
         | top :: stk =>
           if top = ['.', '.'] then cleanSegs ab (['.', '.'] :: top :: stk) rest
           else cleanSegs ab stk rest)
      else cleanSegs ab (seg :: stack) rest := rfl

theorem cleanSegs_id (ab : Bool) :
    ∀ (segs stack : List Str), (∀ s ∈ segs, s ≠ ['.'] ∧ s ≠ ['.', '.']) →
      cleanSegs ab stack segs = stack.reverse ++ segs := by
  intro segs
  induction segs with
  | nil => intro stack _; simp [cleanSegs_nil]
  | cons seg rest ih =>
    intro stack h
    have h1 := h seg (List.mem_cons_self _ _)
    rw [cleanSegs_cons, if_neg h1.1, if_neg h1.2,
        ih (seg :: stack) (fun s hs => h s (List.mem_cons_of_mem _ hs))]
    simp

theorem cleanSegs_good :
    ∀ (segs stack : List Str), (∀ s ∈ segs, isSeg s) → (∀ s ∈ stack, goodSeg s) →
      ∀ s ∈ cleanSegs true stack segs, goodSeg s := by
  intro segs
  induction segs with
  | nil =>
    intro stack _ hstack s hs
    rw [cleanSegs_nil] at hs
    exact hstack s (by simpa using hs)
  | cons seg rest ih =>
    intro stack hsegs hstack s hs
    have hseg := hsegs seg (List.mem_cons_self _ _)
    have hrest : ∀ x ∈ rest, isSeg x := fun x hx => hsegs x (List.mem_cons_of_mem _ hx)
    rw [cleanSegs_cons] at hs
    by_cases hdot : seg = ['.']
    · rw [if_pos hdot] at hs
      exact ih stack hrest hstack s hs
    · rw [if_neg hdot] at hs
      by_cases hdd : seg = ['.', '.']
      · rw [if_pos hdd] at hs
        cases stack with
        | nil =>
          simp only [if_pos rfl] at hs
          exact ih [] hrest (by simp) s hs
        | cons top stk =>
          have htop := hstack top (List.mem_cons_self _ _)
          simp only [if_neg htop.2.2.2] at hs
          exact ih stk hrest (fun x hx => hstack x (List.mem_cons_of_mem _ hx)) s hs
      · rw [if_neg hdd] at hs
        refine ih (seg :: stack) hrest (fun x hx => ?_) s hs
        rcases List.mem_cons.mp hx with h1 | h1
        · subst h1; exact ⟨hseg.1, hseg.2, hdot, hdd⟩
        · exact hstack x h1

theorem joinSegs_cons2 (s t : Str) (rest : List Str) :
    joinSegs (s :: t :: rest) = s ++ '/' :: joinSegs (t :: rest) := rfl

theorem joinSegs_append :
    ∀ (a b : List Str), a ≠ [] → b ≠ [] →
      joinSegs (a ++ b) = joinSegs a ++ '/' :: joinSegs b := by
  intro a
  induction a with
  | nil => intro b h; exact absurd rfl h
  | cons x a' ih =>
    intro b _ hb
    cases a' with
    | nil =>
      cases b with
      | nil => exact absurd rfl hb
      | cons y b' => rw [List.cons_append, List.nil_append, joinSegs_cons2]; rfl
    | cons z a'' =>
      have h2 := ih b (by simp) hb
      calc joinSegs ((x :: z :: a'') ++ b)
          = x ++ '/' :: joinSegs ((z :: a'') ++ b) := rfl
        _ = x ++ '/' :: (joinSegs (z :: a'') ++ '/' :: joinSegs b) := by rw [h2]
        _ = (x ++ '/' :: joinSegs (z :: a'')) ++ '/' :: joinSegs b := by
            rw [List.append_assoc]; rfl
        _ = joinSegs (x :: z :: a'') ++ '/' :: joinSegs b := rfl

theorem joinSegs_last :
    ∀ (segs : List Str), (∀ s ∈ segs, isSeg s) → segs ≠ [] →
      ∃ u c, joinSegs segs = u ++ [c] ∧ c ≠ '/' := by
  intro segs
  induction segs with
  | nil => intro _ h; exact absurd rfl h
  | cons s rest ih =>
    intro h _
    have hseg := h s (List.mem_cons_self _ _)
    cases rest with
    | nil =>
      refine ⟨s.dropLast, s.getLast hseg.1, ?_, ?_⟩
      · rw [show joinSegs [s] = s from rfl, List.dropLast_append_getLast hseg.1]
      · intro hc
        exact hseg.2 (hc ▸ List.getLast_mem hseg.1)
    | cons t rest' =>
      obtain ⟨u, c, hu, hc⟩ := ih (fun x hx => h x (List.mem_cons_of_mem _ hx)) (by simp)
      refine ⟨s ++ '/' :: u, c, ?_, hc⟩
      rw [joinSegs_cons2, hu, List.append_assoc, List.cons_append]

theorem noDS_cons2 (a b : Char) (rest : Str) :
    noDS (a :: b :: rest) = (!(a == '/' && b == '/') && noDS (b :: rest)) := rfl

theorem noDS_skip :
    ∀ (s : Str), '/' ∉ s → ∀ t, noDS (s ++ t) = noDS t := by
  intro s
  induction s with
  | nil => intro _ t; rfl
  | cons c s' ih =>
    intro hns t
    have hc : c ≠ '/' := fun h => hns (by simp [h])
    have hs' : '/' ∉ s' := fun h => hns (List.mem_cons_of_mem _ h)
    have hcb : (c == '/') = false := by simpa using hc
    rw [List.cons_append]
    cases hst : s' ++ t with
    | nil =>
      obtain ⟨h1, h2⟩ := List.append_eq_nil.mp hst
      subst h1; subst h2
      rfl
    | cons b r =>
      rw [noDS_cons2, hcb, ← hst, ih hs' t]
      simp

theorem noDS_join :
    ∀ (segs : List Str), (∀ s ∈ segs, isSeg s) → noDS ('/' :: joinSegs segs) = true := by
  intro segs
  induction segs with
  | nil => intro _; rfl
  | cons s rest ih =>
    intro h
    have hseg := h s (List.mem_cons_self _ _)
    have hrest : ∀ x ∈ rest, isSeg x := fun x hx => h x (List.mem_cons_of_mem _ hx)
    obtain ⟨c, s', rfl⟩ : ∃ c s', s = c :: s' := by
      cases s with
      | nil => exact absurd rfl hseg.1
      | cons c s' => exact ⟨c, s', rfl⟩
    have hc : c ≠ '/' := fun hcc => hseg.2 (by simp [hcc])
    have hcb : (c == '/') = false := by simpa using hc
    have hs' : '/' ∉ s' := fun hm => hseg.2 (List.mem_cons_of_mem _ hm)
    cases rest with
    | nil =>
      rw [show joinSegs [c :: s'] = c :: s' from rfl, noDS_cons2, hcb]
      have := noDS_skip (c :: s') hseg.2 []
      simp only [List.append_nil] at this
      rw [show noDS [] = true from rfl] at this
      simp [this]
    | cons t rest' =>
      rw [joinSegs_cons2, List.cons_append, noDS_cons2, hcb]
      have h2 : noDS (c :: s' ++ '/' :: joinSegs (t :: rest')) = true := by
        rw [noDS_skip (c :: s') hseg.2 ('/' :: joinSegs (t :: rest')), ih hrest]
      rw [List.cons_append] at h2
      rw [h2]
      simp

theorem noDS_dd :
    ∀ (l r : Str), noDS (l ++ '/' :: '/' :: r) = false := by
  intro l
  induction l with
  | nil =>
    intro r
    rw [List.nil_append, noDS_cons2]
    simp
  | cons c l' ih =>
    intro r
    rw [List.cons_append]
    cases hl : l' ++ '/' :: '/' :: r with
    | nil => simp at hl
    | cons b rest =>
      rw [noDS_cons2, ← hl, ih r]
      simp

theorem lastChar_concat : ∀ (l : Str) (a : Char), lastChar (l ++ [a]) = some a := by
  intro l
  induction l with
  | nil => intro a; rfl
  | cons c l' ih =>
    intro a
    cases l' with
    | nil => rfl
    | cons d l'' =>
      exact ih a

theorem hasPrefix_iff {s pre : Str} : hasPrefix s pre = true ↔ pre <+: s := by
  simp [hasPrefix, List.isPrefixOf_iff_prefix]

theorem goClean_abs_eq (p : Str) (hab : isAbs p = true) :
    goClean p = '/' :: joinSegs (cleanSegs true [] (splitSegs p)) := by
  have hp : p ≠ [] := by intro h; subst h; simp [isAbs] at hab
  simp only [goClean, if_neg hp, hab]
  simp

theorem goClean_abs_form (p : Str) (hab : isAbs p = true) :
    ∃ segs, (∀ s ∈ segs, goodSeg s) ∧ goClean p = '/' :: joinSegs segs :=
  ⟨cleanSegs true [] (splitSegs p),
   cleanSegs_good (splitSegs p) [] (splitSegsAux_isSeg p [] (by simp)) (by simp),
   goClean_abs_eq p hab⟩

theorem goClean_idem_abs (segs : List Str) (h : ∀ s ∈ segs, goodSeg s) :
    goClean ('/' :: joinSegs segs) = '/' :: joinSegs segs := by
  have hab : isAbs ('/' :: joinSegs segs) = true := by simp [isAbs]
  rw [goClean_abs_eq _ hab]
  have hsplit : splitSegs ('/' :: joinSegs segs) = segs := by
    show splitSegsAux [] ('/' :: joinSegs segs) = segs
    rw [splitSegsAux_cons, if_pos rfl, if_pos rfl]
    exact splitSegs_joinSegs segs (fun s hs => ⟨(h s hs).1, (h s hs).2.1⟩)
  rw [hsplit, cleanSegs_id true segs [] (fun s hs => ⟨(h s hs).2.2.1, (h s hs).2.2.2⟩)]
  simp

theorem goClean_trailing (p : Str) (hab : isAbs p = true) :
    goClean (p ++ ['/']) = goClean p := by
  have hab2 : isAbs (p ++ ['/']) = true := by
    obtain ⟨t, rfl⟩ := isAbs_eq_true.mp hab
    simp [isAbs]
  rw [goClean_abs_eq _ hab, goClean_abs_eq _ hab2]
  have hsp : splitSegs (p ++ ['/']) = splitSegs p := splitSegsAux_trailing p []
  rw [hsp]

theorem dropWhile_nonslash :
    ∀ (u : Str), '/' ∉ u →
      ∀ t, (u ++ '/' :: t).dropWhile (fun c => c != '/') = '/' :: t := by
  intro u
  induction u with
  | nil => intro _ t; simp [List.dropWhile_cons]
  | cons c u' ih =>
    intro hu t
    have hc : c ≠ '/' := fun h => hu (by simp [h])
    have hu' : '/' ∉ u' := fun h => hu (List.mem_cons_of_mem _ h)
    rw [List.cons_append, List.dropWhile_cons]
    simp only [hc, bne_iff_ne, ne_eq, not_false_eq_true, if_true]
    exact ih hu' t

theorem goDir_child :
    ∀ (segs : List Str) (s : Str), (∀ x ∈ segs, goodSeg x) → isSeg s →
      goDir ('/' :: joinSegs (segs ++ [s])) = '/' :: joinSegs segs := by
  intro segs s hw hs
  have hsrev : '/' ∉ s.reverse := by simpa using hs.2
  cases segs with
  | nil =>
    rw [show joinSegs ([] ++ [s]) = s from rfl, goDir]
    have hrev : ('/' :: s).reverse = s.reverse ++ '/' :: ([] : Str) := by simp
    rw [hrev, dropWhile_nonslash s.reverse hsrev []]
    rfl
  | cons r rsegs =>
    have hja := joinSegs_append (r :: rsegs) [s] (by simp) (by simp)
    rw [hja, show joinSegs [s] = s from rfl, goDir]
    have hrev : ('/' :: (joinSegs (r :: rsegs) ++ '/' :: s)).reverse
        = s.reverse ++ '/' :: ((joinSegs (r :: rsegs)).reverse ++ ['/']) := by
      simp
    rw [hrev, dropWhile_nonslash s.reverse hsrev _]
    have hrev2 : ('/' :: ((joinSegs (r :: rsegs)).reverse ++ ['/'])).reverse
        = ('/' :: joinSegs (r :: rsegs)) ++ ['/'] := by
      simp
    rw [hrev2, goClean_trailing _ (by rfl), goClean_idem_abs _ hw]

theorem joinSegs_length_lt :
    ∀ (segs extra : List Str), extra ≠ [] → (∀ s ∈ extra, s ≠ []) →
      (joinSegs segs).length < (joinSegs (segs ++ extra)).length := by
  intro segs extra hne hwf
  cases extra with
  | nil => exact absurd rfl hne
  | cons e ex =>
    have he : e ≠ [] := hwf e (List.mem_cons_self _ _)
    have hlen : 0 < (joinSegs (e :: ex)).length := by
      cases ex with
      | nil => simpa [joinSegs, List.length_pos] using he
      | cons f ex' =>
        rw [joinSegs_cons2]
        simp
    cases segs with
    | nil => simpa using hlen
    | cons g gs =>
      rw [joinSegs_append (g :: gs) (e :: ex) (by simp) (by simp)]
      simp

theorem joinSegs_ne_extend (segs extra : List Str) (hne : extra ≠ [])
    (hwf : ∀ s ∈ extra, s ≠ []) :
    ('/' :: joinSegs (segs ++ extra)) ≠ ('/' :: joinSegs segs) := by
  intro h
  have hlt := joinSegs_length_lt segs extra hne hwf
  have h2 : joinSegs (segs ++ extra) = joinSegs segs := by
    injection h
  rw [h2] at hlt
  exact lt_irrefl _ hlt

/-- Decomposition of a successful parseSafePath call: the admitted
absolute path is a cleaned absolute path, the root passed the bare
prefix check, and the relative path is the double TrimPrefix of the
source. -/
theorem parseSafePath_char (root raw : Str) (sp : SafePath)
    (hp : parseSafePath root raw = some sp) :
    (∃ asegs, (∀ s ∈ asegs, goodSeg s) ∧ sp.abs = '/' :: joinSegs asegs) ∧
      hasPrefix sp.abs root = true ∧
      sp.rel = (if sp.abs = root then [] else trimPrefix (trimPrefix sp.abs root) ['/']) := by
  unfold parseSafePath at hp
  split at hp
  · exact absurd hp (by simp)
  next abs hj =>
    split at hp
    next hpre =>
      injection hp with h
      subst h
      have habs : ∃ asegs, (∀ s ∈ asegs, goodSeg s) ∧ abs = '/' :: joinSegs asegs := by
        unfold goAbs at hj
        split at hj
        next hq =>
          injection hj with hj2
          obtain ⟨segs, h1, h2⟩ := goClean_abs_form _ hq
          exact ⟨segs, h1, by rw [← hj2, h2]⟩
        next => exact absurd hj (by simp)
      refine ⟨habs, hpre, ?_⟩
      by_cases he : abs = root
      · simp [he]
      · simp [he]
    next => exact absurd hp (by simp)

/-- C9: for every raw request string, whenever parseSafePath returns a
non-nil safePath against a cleaned absolute configured root, the abs
field has the root as a string prefix, the rel field never begins with
a path separator, rel is empty exactly when abs equals the root, and
otherwise rel is abs with the root prefix and at most one following
separator stripped. -/
theorem c9_safe_path_invariants (root raw : Str) (sp : SafePath)
    (hab : isAbs root = true)
    (hp : parseSafePath root raw = some sp) :
    hasPrefix sp.abs root = true ∧
    sp.rel.head? ≠ some '/' ∧
    (sp.rel = [] ↔ sp.abs = root) ∧
    (sp.abs = root ++ sp.rel ∨ sp.abs = root ++ '/' :: sp.rel) := by
  obtain ⟨⟨asegs, hwf, habs⟩, hpre, hrel⟩ := parseSafePath_char root raw sp hp
  have hroot_ne : root ≠ [] := by intro h; subst h; simp [isAbs] at hab
  have hnds : noDS sp.abs = true := by
    rw [habs]
    exact noDS_join asegs (fun s hs => ⟨(hwf s hs).1, (hwf s hs).2.1⟩)
  obtain ⟨t, ht⟩ : root <+: sp.abs := hasPrefix_iff.mp hpre
  by_cases heq : sp.abs = root
  · rw [if_pos heq] at hrel
    refine ⟨hpre, ?_, ?_, ?_⟩
    · rw [hrel]; simp
    · rw [hrel]; simp [heq]
    · left; rw [hrel, List.append_nil]; exact heq
  · rw [if_neg heq] at hrel
    have htp : trimPrefix sp.abs root = t := by
      rw [trimPrefix, if_pos ((List.isPrefixOf_iff_prefix).mpr ⟨t, ht⟩), ← ht, List.drop_left]
    rw [htp] at hrel
    have htne : t ≠ [] := by
      intro h; subst h
      exact heq (by rw [← ht, List.append_nil])
    cases t with
    | nil => exact absurd rfl htne
    | cons c t' =>
      by_cases hc : c = '/'
      · subst hc
        have hip : (['/'] : Str).isPrefixOf ('/' :: t') = true := by
          simp [List.isPrefixOf]
        rw [trimPrefix, if_pos hip] at hrel
        simp only [List.length_singleton, List.drop_one, List.tail_cons] at hrel
        refine ⟨hpre, ?_, ?_, ?_⟩
        · intro hh
          rw [hrel] at hh
          obtain ⟨u, rfl⟩ : ∃ u, t' = '/' :: u := by
            cases t' with
            | nil => simp at hh
            | cons d u =>
              have hdc : d = '/' := by simpa using hh
              exact ⟨u, by rw [hdc]⟩
          have hff : noDS sp.abs = false := by
            rw [← ht]; exact noDS_dd root u
          rw [hff] at hnds; exact absurd hnds (by simp)
        · constructor
          · intro hh
            rw [hrel] at hh
            subst hh
            have hlast : lastChar sp.abs = some '/' := by
              rw [← ht]; exact lastChar_concat root '/'
            cases hasegs : asegs with
            | nil =>
              rw [hasegs] at habs
              have hlen := congrArg List.length (ht.trans habs)
              simp [joinSegs] at hlen
              exact absurd hlen hroot_ne
            | cons a as =>
              obtain ⟨u, cc, hj, hcc⟩ :=
                joinSegs_last asegs (fun s hs => ⟨(hwf s hs).1, (hwf s hs).2.1⟩)
                  (by rw [hasegs]; simp)
              have hlast2 : lastChar sp.abs = some cc := by
                rw [habs, hj, show ('/' :: (u ++ [cc]) : Str) = ('/' :: u) ++ [cc] from rfl]
                exact lastChar_concat ('/' :: u) cc
              rw [hlast] at hlast2
              exact absurd (Option.some.inj hlast2).symm hcc
          · intro hh; exact absurd hh heq
        · right; rw [hrel, ← ht]
      · have hip : (['/'] : Str).isPrefixOf (c :: t') = false := by
          simp [List.isPrefixOf, Ne.symm hc]
        rw [trimPrefix, hip] at hrel
        simp only [Bool.false_eq_true, if_false] at hrel
        refine ⟨hpre, ?_, ?_, ?_⟩
        · rw [hrel]
          intro hh
          exact hc (Option.some.inj (by simpa using hh))
        · constructor
          · intro hh; rw [hrel] at hh; exact absurd hh (by simp)
          · intro hh; exact absurd hh heq
        · left; rw [hrel, ← ht]

/-- Witness for C9: the invariants instantiated at root /data and the
request /x, whose resolution succeeds with abs /data/x and rel x. -/
theorem c9_witness :
    hasPrefix "/data/x".toList "/data".toList = true ∧
    ("x".toList : Str).head? ≠ some '/' ∧
    (("x".toList : Str) = [] ↔ "/data/x".toList = "/data".toList) ∧
    ("/data/x".toList = "/data".toList ++ "x".toList ∨
     "/data/x".toList = "/data".toList ++ '/' :: "x".toList) :=
  c9_safe_path_invariants "/data".toList "/x".toList
    ⟨"/data/x".toList, "x".toList⟩ (by decide) (by decide)

/-! Concrete fixtures used by the witnesses and counterexamples: a root
/data containing a.txt and sub/b.txt, with a sibling file /data-secret
outside the root. -/

/-- Fixture: the configured root directory /data. -/
def root0 : Str := "/data".toList

/-- Fixture: the home directory of the program binary. -/
def home0 : Str := "/opt/sharedir/".toList

/-- Fixture mime table: only the .html extension is registered. -/
def tbe0 : Str → Str := fun e =>
  if e = ".html".toList then "text/html; charset=utf-8".toList else []

/-- Fixture stat: /data and /data/sub are directories; /data/a.txt,
/data/sub/b.txt and the sibling /data-secret are files. -/
def stat0 : Str → Option Bool := fun p =>
  if p = "/data".toList then some true
  else if p = "/data/sub".toList then some true
  else if p = "/data/a.txt".toList then some false
  else if p = "/data/sub/b.txt".toList then some false
  else if p = "/data-secret".toList then some false
  else none

/-- Fixture file contents. -/
def read0 : Str → Option Str := fun p =>
  if p = "/data/a.txt".toList then some "hello".toList
  else if p = "/data/sub/b.txt".toList then some "bye".toList
  else if p = "/data-secret".toList then some "top secret".toList
  else none

/-- Fixture directory listings. -/
def readDir0 : Str → Option (List Str) := fun p =>
  if p = "/data".toList then some ["a.txt".toList, "sub".toList]
  else if p = "/data/sub".toList then some ["b.txt".toList]
  else none

/-- C1: refuted by the code — the containment comparison is the bare
strings.HasPrefix of sharedir.go line 53 (and part_000 line 103), so
with root /data the sibling-prefix candidate /data-secret, reached by
the request /../data-secret, is admitted by parseSafePath instead of
being rejected, although it is neither the root nor the root followed
by a path separator. -/
theorem c1_bare_prefix_admits_sibling :
    parseSafePath root0 "/../data-secret".toList =
      some ⟨"/data-secret".toList, "-secret".toList⟩ ∧
    ¬ specContained "/data-secret".toList root0 ∧
    hasPrefix "/data-secret".toList root0 = true := by decide

/-- C2: refuted by the code — the traversal request /../data-secret is
not rejected with 400 or 401: in recursive mode sharedir.go reads and
serves the resolved path /data-secret with status 200, and that path
violates the containment invariant.  The unnamed variant serves it even
with recursion off. -/
theorem c2_traversal_served_outside_root :
    statusOf (serve root0 true home0 tbe0 stat0 read0 readDir0 true true true []
      "/../data-secret".toList) = some 200 ∧
    Ev.readFile "/data-secret".toList ∈
      serve root0 true home0 tbe0 stat0 read0 readDir0 true true true []
        "/../data-secret".toList ∧
    statusOf (Unnamed.serve root0 false tbe0 stat0 read0 readDir0 [] true
      "/../data-secret".toList) = some 200 ∧
    ¬ specContained "/data-secret".toList root0 := by decide

/-- C4: refuted by the code — on a successfully served file both
variants call w.Write with the body before setting the Content-Type
header (sharedir.go lines 148 and 154; part_000 lines 142 and 150): in
the trace of serving /data/a.txt the body write strictly precedes the
Content-Type set. -/
theorem c4_body_written_before_content_type :
    bodyBeforeType (serveFile tbe0 read0 true ⟨"/data/a.txt".toList, "a.txt".toList⟩) = true ∧
    bodyBeforeType (Unnamed.serveFile tbe0 read0 true "/data/a.txt".toList) = true ∧
    serveFile tbe0 read0 true ⟨"/data/a.txt".toList, "a.txt".toList⟩ =
      [Ev.readFile "/data/a.txt".toList, Ev.write "hello".toList,
       Ev.setHeader "Content-Type".toList "application/octet-stream".toList] := by decide

/-- C8: confirmed — a request for the reserved path /~favicon.ico is
answered by serveIcon before path resolution runs: the response is the
same for every root, recursion mode, stat function, directory reader
and template outcome, and the file read is always the fixed location
home/sharedir.ico, uninfluenced by client input. -/
theorem c8_favicon_carveout (root : Str) (rec? : Bool) (home : Str)
    (typeByExt : Str → Str) (statF : Str → Option Bool) (readFileF : Str → Option Str)
    (readDirF : Str → Option (List Str)) (writeOk parseOk execOk : Bool) (rendered : Str) :
    serve root rec? home typeByExt statF readFileF readDirF writeOk parseOk execOk rendered
        faviconPath
      = serveIcon typeByExt readFileF writeOk home ∧
    serveIcon typeByExt readFileF writeOk home
      = serveFile typeByExt readFileF writeOk ⟨goJoin home "sharedir.ico".toList, []⟩ ∧
    (serve root rec? home typeByExt statF readFileF readDirF writeOk parseOk execOk rendered
        faviconPath).head?
      = some (Ev.readFile (goJoin home "sharedir.ico".toList)) := by
  have h1 : serve root rec? home typeByExt statF readFileF readDirF writeOk parseOk execOk
      rendered faviconPath = serveIcon typeByExt readFileF writeOk home := by
    unfold serve
    rw [if_pos rfl]
  refine ⟨h1, rfl, ?_⟩
  rw [h1]
  show (serveFile typeByExt readFileF writeOk ⟨goJoin home "sharedir.ico".toList, []⟩).head? = _
  cases h : readFileF (goJoin home "sharedir.ico".toList) with
  | none =>
    simp only [serveFile, h]
    rfl
  | some d =>
    cases writeOk <;> (simp only [serveFile, h]; rfl)

/-- C10: confirmed — the unnamed variant parses the -r flag (parseArgs
maps a lone -r argument to recursive mode with the default address and
root), but its request handler never consults the flag: the serve trace
is identical for both values, for every configuration and request. -/
theorem c10_recursive_flag_unused :
    (∀ (rootDir : Str) (r1 r2 : Bool) (typeByExt : Str → Str)
       (statF : Str → Option Bool) (readFileF : Str → Option Str)
       (readDirF : Str → Option (List Str)) (rendered : Str) (writeOk : Bool) (raw : Str),
       Unnamed.serve rootDir r1 typeByExt statF readFileF readDirF rendered writeOk raw =
       Unnamed.serve rootDir r2 typeByExt statF readFileF readDirF rendered writeOk raw) ∧
    Unnamed.parseArgs ["-r".toList] = some (true, ":2022".toList, ".".toList) :=
  ⟨fun _ _ _ _ _ _ _ _ _ _ => rfl, by decide⟩

/-- C6: confirmed — when directory enumeration fails on an allowed
directory, both variants call log.Fatalf and the process dies without
any per-request error response (no status is written), and sharedir.go
behaves the same when template parsing or template execution fails. -/
theorem c6_dir_failures_fatal :
    (∀ (readDirF : Str → Option (List Str)) (parseOk execOk : Bool) (rendered : Str)
       (p : SafePath), readDirF p.abs = none →
       serveDir readDirF parseOk execOk rendered p = [Ev.readDir p.abs, Ev.fatal] ∧
       statusOf (serveDir readDirF parseOk execOk rendered p) = none) ∧
    (∀ (readDirF : Str → Option (List Str)) (es : List Str) (execOk : Bool) (rendered : Str)
       (p : SafePath), readDirF p.abs = some es →
       serveDir readDirF false execOk rendered p = [Ev.readDir p.abs, Ev.fatal]) ∧
    (∀ (readDirF : Str → Option (List Str)) (es : List Str) (rendered : Str)
       (p : SafePath), readDirF p.abs = some es →
       serveDir readDirF true false rendered p = [Ev.readDir p.abs, Ev.fatal]) ∧
    (∀ (readDirF : Str → Option (List Str)) (rendered : Str) (writeOk : Bool) (dir : Str),
       readDirF dir = none →
       Unnamed.serveDir readDirF rendered writeOk dir = [Ev.readDir dir, Ev.fatal] ∧
       statusOf (Unnamed.serveDir readDirF rendered writeOk dir) = none) := by
  refine ⟨?_, ?_, ?_, ?_⟩
  · intro rdF pOk eOk rnd p h
    have ht : serveDir rdF pOk eOk rnd p = [Ev.readDir p.abs, Ev.fatal] := by
      simp [serveDir, h]
    exact ⟨ht, by rw [ht]; rfl⟩
  · intro rdF es eOk rnd p h
    simp [serveDir, h]
  · intro rdF es rnd p h
    simp [serveDir, h]
  · intro rdF rnd wOk dir h
    have ht : Unnamed.serveDir rdF rnd wOk dir = [Ev.readDir dir, Ev.fatal] := by
      simp [Unnamed.serveDir, h]
    exact ⟨ht, by rw [ht]; rfl⟩

/-- Witness for C6: a failing directory read on /data makes both
variants die with the fatal marker. -/
theorem c6_witness :
    serveDir (fun _ => none) true true [] ⟨"/data".toList, []⟩ =
      [Ev.readDir "/data".toList, Ev.fatal] ∧
    Unnamed.serveDir (fun _ => none) [] true "/data".toList =
      [Ev.readDir "/data".toList, Ev.fatal] :=
  ⟨(c6_dir_failures_fatal.1 (fun _ => none) true true [] ⟨"/data".toList, []⟩ rfl).1,
   (c6_dir_failures_fatal.2.2.2 (fun _ => none) [] true "/data".toList rfl).1⟩

/-- C7: confirmed — guessMimeType (sharedir.go) returns the registered
type of the extension whenever the path has a non-empty extension the
table registers, and the generic binary type whenever the path has no
extension or the lookup yields nothing; getMimeType of the unnamed
variant behaves the same for its notion of extension (a dot followed by
the last dot-separated part of the name). -/
theorem c7_mime_guess (typeByExt : Str → Str) (fp : Str) :
    (goExt fp ≠ [] → typeByExt (goExt fp) ≠ [] →
       guessMimeType typeByExt fp = typeByExt (goExt fp)) ∧
    (goExt fp = [] ∨ typeByExt (goExt fp) = [] →
       guessMimeType typeByExt fp = "application/octet-stream".toList) ∧
    ((splitAll fp '.').length > 1 → typeByExt ('.' :: (splitAll fp '.').getLastD []) ≠ [] →
       Unnamed.getMimeType typeByExt fp = typeByExt ('.' :: (splitAll fp '.').getLastD [])) ∧
    ((splitAll fp '.').length ≤ 1 ∨ typeByExt ('.' :: (splitAll fp '.').getLastD []) = [] →
       Unnamed.getMimeType typeByExt fp = "application/octet-stream".toList) := by
  refine ⟨?_, ?_, ?_, ?_⟩
  · intro h1 h2
    simp only [guessMimeType, if_pos h1, if_pos h2]
  · rintro (h | h)
    · simp only [guessMimeType, h, ne_eq, not_true_eq_false, if_false, ite_self]
    · by_cases h1 : goExt fp = []
      · simp only [guessMimeType, h1, ne_eq, not_true_eq_false, if_false, ite_self]
      · simp only [guessMimeType, if_pos h1, h, ne_eq, not_true_eq_false, if_false]
  · intro h1 h2
    simp only [Unnamed.getMimeType, if_pos h1, if_neg h2]
  · rintro (h | h)
    · have h1 : ¬ (splitAll fp '.').length > 1 := by omega
      simp only [Unnamed.getMimeType, if_neg h1]
    · by_cases h1 : (splitAll fp '.').length > 1
      · simp only [Unnamed.getMimeType, if_pos h1, if_pos h]
      · simp only [Unnamed.getMimeType, if_neg h1]

/-- Witness for C7: with a table registering only .html, index.html is
served as HTML and an extensionless or unregistered name falls back to
the generic binary type, in both variants. -/
theorem c7_witness :
    guessMimeType tbe0 "index.html".toList = "text/html; charset=utf-8".toList ∧
    guessMimeType tbe0 "README".toList = "application/octet-stream".toList ∧
    Unnamed.getMimeType tbe0 "/data/x.html".toList = "text/html; charset=utf-8".toList ∧
    Unnamed.getMimeType tbe0 "/data/x.png".toList = "application/octet-stream".toList :=
  ⟨(c7_mime_guess tbe0 "index.html".toList).1 (by decide) (by decide),
   (c7_mime_guess tbe0 "README".toList).2.1 (Or.inl (by decide)),
   (c7_mime_guess tbe0 "/data/x.html".toList).2.2.1 (by decide) (by decide),
   (c7_mime_guess tbe0 "/data/x.png".toList).2.2.2 (Or.inr (by decide))⟩

/-- The dispatch of serve after the reserved path, the resolution and
the stat have been settled: what remains is exactly the access-policy
decision of sharedir.go lines 111-123. -/
theorem serve_dispatch (root : Str) (rec? : Bool) (home : Str) (typeByExt : Str → Str)
    (statF : Str → Option Bool) (readFileF : Str → Option Str)
    (readDirF : Str → Option (List Str)) (writeOk parseOk execOk : Bool) (rendered : Str)
    (raw : Str) (sp : SafePath) (isDirT : Bool)
    (hraw : raw ≠ faviconPath) (hp : parseSafePath root raw = some sp)
    (hstat : statF sp.abs = some isDirT) :
    serve root rec? home typeByExt statF readFileF readDirF writeOk parseOk execOk rendered
        raw =
      if isDirT then
        (if rec? = true ∨ sp.abs = root then serveDir readDirF parseOk execOk rendered sp
         else serveFailure 401 "unauthorized".toList)
      else
        (if rec? = true ∨ goDir sp.abs = root then serveFile typeByExt readFileF writeOk sp
         else serveFailure 401 "unauthorized".toList) := by
  simp only [serve, if_neg hraw, hp, hstat]

/-- A successful file serve answers with the implicit status 200. -/
theorem statusOf_serveFile (typeByExt : Str → Str) (readFileF : Str → Option Str)
    (p : SafePath) (d : Str) (h : readFileF p.abs = some d) :
    statusOf (serveFile typeByExt readFileF true p) = some 200 := by
  simp only [serveFile, h]
  rfl

/-- A successful directory serve answers with the implicit status 200. -/
theorem statusOf_serveDir (readDirF : Str → Option (List Str)) (rendered : Str)
    (p : SafePath) (es : List Str) (h : readDirF p.abs = some es) :
    statusOf (serveDir readDirF true true rendered p) = some 200 := by
  simp only [serveDir, h]
  rfl

/-- C3 (amended): in the sharedir.go variant the access decision
follows the decision table — with recursion off, a file whose parent
directory is the root is served (implicit 200) while a file two or more
levels below root and a directory strictly below root are denied with
401 even though they exist, the root directory itself being served; and
with recursion on, any existing admitted file or directory is served.
Positions are expressed through the segment decomposition of the
resolved path below the cleaned absolute root.  (The unnamed variant
does not follow the table; see the counterexample.) -/
theorem c3_decision_table (root : Str) (rsegs : List Str) (home : Str)
    (typeByExt : Str → Str) (statF : Str → Option Bool) (readFileF : Str → Option Str)
    (readDirF : Str → Option (List Str)) (parseOk execOk : Bool) (rendered : Str)
    (hroot : root = '/' :: joinSegs rsegs) (hwf : ∀ s ∈ rsegs, goodSeg s) :
    (∀ raw sp s1 data, raw ≠ faviconPath → parseSafePath root raw = some sp →
       sp.abs = '/' :: joinSegs (rsegs ++ [s1]) → goodSeg s1 →
       statF sp.abs = some false → readFileF sp.abs = some data →
       statusOf (serve root false home typeByExt statF readFileF readDirF true parseOk execOk
         rendered raw) = some 200) ∧
    (∀ raw sp ds, raw ≠ faviconPath → parseSafePath root raw = some sp →
       sp.abs = '/' :: joinSegs (rsegs ++ ds) → (∀ s ∈ ds, goodSeg s) → 2 ≤ ds.length →
       statF sp.abs = some false →
       serve root false home typeByExt statF readFileF readDirF true parseOk execOk
         rendered raw = serveFailure 401 "unauthorized".toList) ∧
    (∀ raw sp ds, raw ≠ faviconPath → parseSafePath root raw = some sp →
       sp.abs = '/' :: joinSegs (rsegs ++ ds) → (∀ s ∈ ds, goodSeg s) → ds ≠ [] →
       statF sp.abs = some true →
       serve root false home typeByExt statF readFileF readDirF true parseOk execOk
         rendered raw = serveFailure 401 "unauthorized".toList) ∧
    (∀ raw sp es, raw ≠ faviconPath → parseSafePath root raw = some sp →
       sp.abs = root → statF sp.abs = some true → readDirF sp.abs = some es →
       statusOf (serve root false home typeByExt statF readFileF readDirF true true true
         rendered raw) = some 200) ∧
    (∀ raw sp data, raw ≠ faviconPath → parseSafePath root raw = some sp →
       statF sp.abs = some false → readFileF sp.abs = some data →
       statusOf (serve root true home typeByExt statF readFileF readDirF true parseOk execOk
         rendered raw) = some 200) ∧
    (∀ raw sp es, raw ≠ faviconPath → parseSafePath root raw = some sp →
       statF sp.abs = some true → readDirF sp.abs = some es →
       statusOf (serve root true home typeByExt statF readFileF readDirF true true true
         rendered raw) = some 200) := by
  refine ⟨?_, ?_, ?_, ?_, ?_, ?_⟩
  · intro raw sp s1 data hraw hp habs hs1 hstat hread
    have hdir : goDir sp.abs = root := by
      rw [habs, goDir_child rsegs s1 hwf ⟨hs1.1, hs1.2.1⟩]
      exact hroot.symm
    rw [serve_dispatch root false home typeByExt statF readFileF readDirF true parseOk execOk
        rendered raw sp false hraw hp hstat,
      if_neg Bool.false_ne_true, if_pos (Or.inr hdir)]
    exact statusOf_serveFile typeByExt readFileF sp data hread
  · intro raw sp ds hraw hp habs hds hlen hstat
    have hds_ne : ds ≠ [] := by intro h; subst h; simp at hlen
    obtain ⟨init, last, hsplit⟩ : ∃ init last, ds = init ++ [last] :=
      ⟨ds.dropLast, ds.getLast hds_ne, (List.dropLast_append_getLast hds_ne).symm⟩
    have hinit_ne : init ≠ [] := by
      intro h
      rw [hsplit, h] at hlen
      simp at hlen
    have hlast_good : goodSeg last := hds last (by rw [hsplit]; simp)
    have hinit_good : ∀ s ∈ rsegs ++ init, goodSeg s := by
      intro s hs
      rcases List.mem_append.mp hs with h | h
      · exact hwf s h
      · exact hds s (by rw [hsplit]; simp [h])
    have hdir : goDir sp.abs = '/' :: joinSegs (rsegs ++ init) := by
      rw [habs, hsplit, show rsegs ++ (init ++ [last]) = (rsegs ++ init) ++ [last] from
        (List.append_assoc rsegs init [last]).symm]
      exact goDir_child (rsegs ++ init) last hinit_good ⟨hlast_good.1, hlast_good.2.1⟩
    have hne : goDir sp.abs ≠ root := by
      rw [hdir, hroot]
      exact joinSegs_ne_extend rsegs init hinit_ne (fun s hs => (hinit_good s (by simp [hs])).1)
    rw [serve_dispatch root false home typeByExt statF readFileF readDirF true parseOk execOk
        rendered raw sp false hraw hp hstat,
      if_neg Bool.false_ne_true, if_neg ?_]
    rintro (h | h)
    · exact Bool.false_ne_true h
    · exact hne h
  · intro raw sp ds hraw hp habs hds hds_ne hstat
    have hne : sp.abs ≠ root := by
      rw [habs, hroot]
      exact joinSegs_ne_extend rsegs ds hds_ne (fun s hs => (hds s hs).1)
    rw [serve_dispatch root false home typeByExt statF readFileF readDirF true parseOk execOk
        rendered raw sp true hraw hp hstat,
      if_pos rfl, if_neg ?_]
    rintro (h | h)
    · exact Bool.false_ne_true h
    · exact hne h
  · intro raw sp es hraw hp habs hstat hdirs
    rw [serve_dispatch root false home typeByExt statF readFileF readDirF true true true
        rendered raw sp true hraw hp hstat,
      if_pos rfl, if_pos (Or.inr habs)]
    exact statusOf_serveDir readDirF rendered sp es hdirs
  · intro raw sp data hraw hp hstat hread
    rw [serve_dispatch root true home typeByExt statF readFileF readDirF true parseOk execOk
        rendered raw sp false hraw hp hstat,
      if_neg Bool.false_ne_true, if_pos (Or.inl rfl)]
    exact statusOf_serveFile typeByExt readFileF sp data hread
  · intro raw sp es hraw hp hstat hdirs
    rw [serve_dispatch root true home typeByExt statF readFileF readDirF true true true
        rendered raw sp true hraw hp hstat,
      if_pos rfl, if_pos (Or.inl rfl)]
    exact statusOf_serveDir readDirF rendered sp es hdirs

/-- Witness for C3: the decision table instantiated on the fixture tree
under /data — a.txt served, sub/b.txt denied, sub denied, the root
listing served, and everything served in recursive mode. -/
theorem c3_witness :
    statusOf (serve root0 false home0 tbe0 stat0 read0 readDir0 true true true []
      "/a.txt".toList) = some 200 ∧
    serve root0 false home0 tbe0 stat0 read0 readDir0 true true true []
      "/sub/b.txt".toList = serveFailure 401 "unauthorized".toList ∧
    serve root0 false home0 tbe0 stat0 read0 readDir0 true true true []
      "/sub".toList = serveFailure 401 "unauthorized".toList ∧
    statusOf (serve root0 false home0 tbe0 stat0 read0 readDir0 true true true []
      "/".toList) = some 200 ∧
    statusOf (serve root0 true home0 tbe0 stat0 read0 readDir0 true true true []
      "/sub/b.txt".toList) = some 200 ∧
    statusOf (serve root0 true home0 tbe0 stat0 read0 readDir0 true true true []
      "/sub".toList) = some 200 := by
  have h := c3_decision_table root0 ["data".toList] home0 tbe0 stat0 read0 readDir0 true true []
    (by decide) (by decide)
  refine ⟨?_, ?_, ?_, ?_, ?_, ?_⟩
  · exact h.1 "/a.txt".toList ⟨"/data/a.txt".toList, "a.txt".toList⟩ "a.txt".toList
      "hello".toList (by decide) (by decide) (by decide) (by decide) (by decide) (by decide)
  · exact h.2.1 "/sub/b.txt".toList ⟨"/data/sub/b.txt".toList, "sub/b.txt".toList⟩
      ["sub".toList, "b.txt".toList] (by decide) (by decide) (by decide) (by decide)
      (by decide) (by decide)
  · exact h.2.2.1 "/sub".toList ⟨"/data/sub".toList, "sub".toList⟩ ["sub".toList]
      (by decide) (by decide) (by decide) (by decide) (by decide) (by decide)
  · exact h.2.2.2.1 "/".toList ⟨"/data".toList, []⟩ ["a.txt".toList, "sub".toList]
      (by decide) (by decide) (by decide) (by decide) (by decide)
  · exact h.2.2.2.2.1 "/sub/b.txt".toList ⟨"/data/sub/b.txt".toList, "sub/b.txt".toList⟩
      "bye".toList (by decide) (by decide) (by decide) (by decide)
  · exact h.2.2.2.2.2 "/sub".toList ⟨"/data/sub".toList, "sub".toList⟩ ["b.txt".toList]
      (by decide) (by decide) (by decide) (by decide)

/-- Counterexample for C3 as stated: in the unnamed variant with
recursion off, the existing file /data/sub/b.txt — two levels below the
root — is served with 200, where the claim requires 401. -/
theorem c3_counterexample_unnamed_deep_file :
    statusOf (Unnamed.serve root0 false tbe0 stat0 read0 readDir0 [] true
      "/sub/b.txt".toList) = some 200 := by decide

/-- C5 (amended): the failure mapping of the code — resolution failure
yields 400 and, in the sharedir.go variant, a path rejected by the
containment check also yields 400 because parseSafePath folds both
failures into nil (the unnamed variant answers 401 for a containment
rejection); a path rejected by the access policy yields 401; a stat
failure yields 404; a read failure after authorization yields 500; and
every error response sets Content-Type text/plain; charset=utf-8. -/
theorem c5_error_mapping :
    (∀ (root : Str) (rec? : Bool) (home : Str) (typeByExt : Str → Str)
       (statF : Str → Option Bool) (readFileF : Str → Option Str)
       (readDirF : Str → Option (List Str)) (writeOk parseOk execOk : Bool)
       (rendered raw : Str),
       raw ≠ faviconPath → parseSafePath root raw = none →
       serve root rec? home typeByExt statF readFileF readDirF writeOk parseOk execOk
         rendered raw = serveFailure 400 "invalid path".toList) ∧
    (∀ (root : Str) (rec? : Bool) (home : Str) (typeByExt : Str → Str)
       (statF : Str → Option Bool) (readFileF : Str → Option Str)
       (readDirF : Str → Option (List Str)) (writeOk parseOk execOk : Bool)
       (rendered raw : Str) (sp : SafePath),
       raw ≠ faviconPath → parseSafePath root raw = some sp → statF sp.abs = none →
       serve root rec? home typeByExt statF readFileF readDirF writeOk parseOk execOk
         rendered raw = serveFailure 404 "invalid path".toList) ∧
    (∀ (root home : Str) (typeByExt : Str → Str)
       (statF : Str → Option Bool) (readFileF : Str → Option Str)
       (readDirF : Str → Option (List Str)) (writeOk parseOk execOk : Bool)
       (rendered raw : Str) (sp : SafePath),
       raw ≠ faviconPath → parseSafePath root raw = some sp →
       statF sp.abs = some false → goDir sp.abs ≠ root →
       serve root false home typeByExt statF readFileF readDirF writeOk parseOk execOk
         rendered raw = serveFailure 401 "unauthorized".toList) ∧
    (∀ (root home : Str) (typeByExt : Str → Str)
       (statF : Str → Option Bool) (readFileF : Str → Option Str)
       (readDirF : Str → Option (List Str)) (writeOk parseOk execOk : Bool)
       (rendered raw : Str) (sp : SafePath),
       raw ≠ faviconPath → parseSafePath root raw = some sp →
       statF sp.abs = some true → sp.abs ≠ root →
       serve root false home typeByExt statF readFileF readDirF writeOk parseOk execOk
         rendered raw = serveFailure 401 "unauthorized".toList) ∧
    (∀ (root home : Str) (typeByExt : Str → Str)
       (statF : Str → Option Bool) (readFileF : Str → Option Str)
       (readDirF : Str → Option (List Str)) (parseOk execOk : Bool)
       (rendered raw : Str) (sp : SafePath),
       raw ≠ faviconPath → parseSafePath root raw = some sp →
       statF sp.abs = some false → readFileF sp.abs = none →
       serve root true home typeByExt statF readFileF readDirF true parseOk execOk
           rendered raw
         = Ev.readFile sp.abs :: serveFailure 500 "server error".toList ∧
       statusOf (serve root true home typeByExt statF readFileF readDirF true parseOk execOk
         rendered raw) = some 500) ∧
    (∀ (code : Nat) (msg : Str),
       Ev.setHeader "Content-Type".toList "text/plain; charset=utf-8".toList ∈
         serveFailure code msg ∧
       Ev.setHeader "Content-Type".toList "text/plain; charset=utf-8".toList ∈
         Unnamed.serveReject code msg) ∧
    (∀ (rootDir : Str) (rec? : Bool) (typeByExt : Str → Str)
       (statF : Str → Option Bool) (readFileF : Str → Option Str)
       (readDirF : Str → Option (List Str)) (rendered : Str) (writeOk : Bool)
       (raw target : Str),
       goAbs (goJoin rootDir raw) = some target → hasPrefix target rootDir = false →
       Unnamed.serve rootDir rec? typeByExt statF readFileF readDirF rendered writeOk raw =
         Unnamed.serveReject 401 "unauthorized path".toList) := by
  refine ⟨?_, ?_, ?_, ?_, ?_, ?_, ?_⟩
  · intro root rec? home tbe statF rFf rdF wOk pOk eOk rnd raw hraw hp
    simp only [serve, if_neg hraw, hp]
  · intro root rec? home tbe statF rFf rdF wOk pOk eOk rnd raw sp hraw hp hstat
    simp only [serve, if_neg hraw, hp, hstat]
  · intro root home tbe statF rFf rdF wOk pOk eOk rnd raw sp hraw hp hstat hne
    rw [serve_dispatch root false home tbe statF rFf rdF wOk pOk eOk rnd raw sp false
        hraw hp hstat,
      if_neg Bool.false_ne_true, if_neg ?_]
    rintro (h | h)
    · exact Bool.false_ne_true h
    · exact hne h
  · intro root home tbe statF rFf rdF wOk pOk eOk rnd raw sp hraw hp hstat hne
    rw [serve_dispatch root false home tbe statF rFf rdF wOk pOk eOk rnd raw sp true
        hraw hp hstat,
      if_pos rfl, if_neg ?_]
    rintro (h | h)
    · exact Bool.false_ne_true h
    · exact hne h
  · intro root home tbe statF rFf rdF pOk eOk rnd raw sp hraw hp hstat hread
    have ht : serve root true home tbe statF rFf rdF true pOk eOk rnd raw
        = Ev.readFile sp.abs :: serveFailure 500 "server error".toList := by
      rw [serve_dispatch root true home tbe statF rFf rdF true pOk eOk rnd raw sp false
          hraw hp hstat,
        if_neg Bool.false_ne_true, if_pos (Or.inl rfl)]
      simp only [serveFile, hread]
    exact ⟨ht, by rw [ht]; rfl⟩
  · intro code msg
    constructor <;> simp [serveFailure, Unnamed.serveReject]
  · intro rootDir rec? tbe statF rFf rdF rnd wOk raw target hj hpre
    simp only [Unnamed.serve, hj, hpre]
    rfl

/-- Witness for C5: each mapping instantiated on the fixtures — an
unresolvable traversal gives 400, a missing file 404, a too-deep file
401, a read failure 500, and the unnamed variant answers 401 to a
containment rejection. -/
theorem c5_witness :
    serve root0 false home0 tbe0 stat0 read0 readDir0 true true true []
      "/../etc/passwd".toList = serveFailure 400 "invalid path".toList ∧
    serve root0 false home0 tbe0 stat0 read0 readDir0 true true true []
      "/missing.txt".toList = serveFailure 404 "invalid path".toList ∧
    serve root0 false home0 tbe0 stat0 read0 readDir0 true true true []
      "/sub/b.txt".toList = serveFailure 401 "unauthorized".toList ∧
    serve root0 false home0 tbe0 stat0 read0 readDir0 true true true []
      "/sub".toList = serveFailure 401 "unauthorized".toList ∧
    statusOf (serve root0 true home0 tbe0 stat0 (fun _ => none) readDir0 true true true []
      "/a.txt".toList) = some 500 ∧
    Ev.setHeader "Content-Type".toList "text/plain; charset=utf-8".toList ∈
      serveFailure 404 "invalid path".toList ∧
    Unnamed.serve root0 false tbe0 stat0 read0 readDir0 [] true
      "/../etc/passwd".toList = Unnamed.serveReject 401 "unauthorized path".toList := by
  refine ⟨?_, ?_, ?_, ?_, ?_, ?_, ?_⟩
  · exact c5_error_mapping.1 root0 false home0 tbe0 stat0 read0 readDir0 true true true []
      "/../etc/passwd".toList (by decide) (by decide)
  · exact c5_error_mapping.2.1 root0 false home0 tbe0 stat0 read0 readDir0 true true true []
      "/missing.txt".toList ⟨"/data/missing.txt".toList, "missing.txt".toList⟩
      (by decide) (by decide) (by decide)
  · exact c5_error_mapping.2.2.1 root0 home0 tbe0 stat0 read0 readDir0 true true true []
      "/sub/b.txt".toList ⟨"/data/sub/b.txt".toList, "sub/b.txt".toList⟩
      (by decide) (by decide) (by decide) (by decide)
  · exact c5_error_mapping.2.2.2.1 root0 home0 tbe0 stat0 read0 readDir0 true true true []
      "/sub".toList ⟨"/data/sub".toList, "sub".toList⟩
      (by decide) (by decide) (by decide) (by decide)
  · exact (c5_error_mapping.2.2.2.2.1 root0 home0 tbe0 stat0 (fun _ => none) readDir0 true true
      [] "/a.txt".toList ⟨"/data/a.txt".toList, "a.txt".toList⟩
      (by decide) (by decide) (by decide) rfl).2
  · exact (c5_error_mapping.2.2.2.2.2.1 404 "invalid path".toList).1
  · exact c5_error_mapping.2.2.2.2.2.2 root0 false tbe0 stat0 read0 readDir0 [] true
      "/../etc/passwd".toList "/etc/passwd".toList (by decide) (by decide)

/-- Counterexample for C5 as stated: in sharedir.go a request whose
resolution succeeds but which the containment check rejects (root /data
against the resolved /etc/passwd) is answered with 400, not the 401 the
claim assigns to containment rejections. -/
theorem c5_counterexample_containment_400 :
    goAbs (goJoin root0 (decodePath "/../etc/passwd".toList)) = some "/etc/passwd".toList ∧
    hasPrefix "/etc/passwd".toList root0 = false ∧
    parseSafePath root0 "/../etc/passwd".toList = none ∧
    statusOf (serve root0 false home0 tbe0 stat0 read0 readDir0 true true true []
      "/../etc/passwd".toList) = some 400 := by decide
